import Mathlib

/-!
Shallow embedding of `packages/moxijs-examples/scripts/update_spritesheet_descriptions.py`.

Python strings are modelled as Lean `String` (the asset names and vocabulary are ASCII, so
the ASCII fragments of `str.lower`, `str.upper`, `str.title`, `str.isspace` are embedded);
Python floats are modelled as exact rationals `ℚ` (the script's arithmetic is the textbook
RGB→HSV formula plus comparisons against decimal constants, all exact over `ℚ`);
PIL images are modelled as a width/height plus an RGBA pixel function, with the PIL
convention that `crop` pads out-of-bounds pixels with transparent black `(0,0,0,0)`.
-/

namespace Moxi

/-! ### ASCII character helpers (model of Python `str` character operations) -/

/-- Model of `c.isdigit()` for ASCII / of the regex class `\d` on ASCII text. -/
def pyIsDigit (c : Char) : Bool := decide (48 ≤ c.toNat ∧ c.toNat ≤ 57)

/-- Model of Python whitespace (as stripped by `int(...)`) restricted to ASCII:
space, tab, newline, vertical tab, form feed, carriage return. -/
def pyIsSpace (c : Char) : Bool := decide (c.toNat = 32 ∨ (9 ≤ c.toNat ∧ c.toNat ≤ 13))

/-- Model of an ASCII cased letter (Python `str.title` upcases a letter after a
non-cased character and downcases the rest). -/
def pyIsAlpha (c : Char) : Bool :=
  decide ((65 ≤ c.toNat ∧ c.toNat ≤ 90) ∨ (97 ≤ c.toNat ∧ c.toNat ≤ 122))

/-- ASCII lower-casing of one character (model of `str.lower` per character). -/
def asciiLower (c : Char) : Char :=
  if 65 ≤ c.toNat ∧ c.toNat ≤ 90 then Char.ofNat (c.toNat + 32) else c

/-- ASCII upper-casing of one character (model of `str.upper` per character). -/
def asciiUpper (c : Char) : Char :=
  if 97 ≤ c.toNat ∧ c.toNat ≤ 122 then Char.ofNat (c.toNat - 32) else c

/-! ### String helpers (models of the Python `str` methods the script uses) -/

/-- Model of `s.lower()` on ASCII text. -/
def pyLower (s : String) : String := String.mk (s.data.map asciiLower)

/-- Model of `s.upper()` on ASCII text. -/
def pyUpper (s : String) : String := String.mk (s.data.map asciiUpper)

/-- Helper for `pyTitle`: the Bool carries whether the previous character was cased. -/
def pyTitleAux : Bool → List Char → List Char
  | _, [] => []
  | prev, c :: rest =>
    (if pyIsAlpha c then (if prev then asciiLower c else asciiUpper c) else c)
      :: pyTitleAux (pyIsAlpha c) rest

/-- Model of `s.title()` on ASCII text. -/
def pyTitle (s : String) : String := String.mk (pyTitleAux false s.data)

/-- Model of the Python substring test `pat in s` on character lists. -/
def isSubstrOf (pat : List Char) : List Char → Bool
  | [] => decide (pat = [])
  | c :: rest => pat.isPrefixOf (c :: rest) || isSubstrOf pat rest

/-- Model of the Python substring test `pat in s`. -/
def pyIn (pat s : String) : Bool := isSubstrOf pat.data s.data

/-- Replace every (leftmost, non-overlapping) occurrence of `pat` by `rep`;
the fuel argument bounds the recursion by the length of the text. -/
def pyReplaceAux (pat rep : List Char) : Nat → List Char → List Char
  | 0, l => l
  | _ + 1, [] => []
  | fuel + 1, c :: rest =>
    if pat.isPrefixOf (c :: rest) then
      rep ++ pyReplaceAux pat rep fuel (List.drop (pat.length - 1) rest)
    else
      c :: pyReplaceAux pat rep fuel rest

/-- Model of `s.replace(pat, rep)` (for the nonempty patterns the script uses). -/
def pyReplace (s pat rep : String) : String :=
  String.mk (pyReplaceAux pat.data rep.data s.data.length s.data)

/-- Model of `s.startswith(pat)`. -/
def pyStartsWith (s pat : String) : Bool := pat.data.isPrefixOf s.data

/-- Strip Python whitespace from both ends of a character list
(model of the implicit strip in `int(...)` and of `s.strip()` on ASCII text). -/
def pyStripList (l : List Char) : List Char :=
  (((l.dropWhile pyIsSpace).reverse.dropWhile pyIsSpace)).reverse

/-- Model of `s.strip()` on ASCII text. -/
def pyStrip (s : String) : String := String.mk (pyStripList s.data)

/-- The maximal trailing digit run of a string: the text matched by the regex
`(\d+)$` (empty if the string does not end in a digit). -/
def trailingDigits (s : String) : String :=
  String.mk (s.data.reverse.takeWhile pyIsDigit).reverse

/-- The string with its maximal trailing digit run removed: the result of
`re.sub(r"\d+$", "", s)`. -/
def dropTrailingDigits (s : String) : String :=
  String.mk (s.data.reverse.dropWhile pyIsDigit).reverse

/-- Everything before the last `'.'`, or the whole string when there is no dot:
the result of `s.rsplit(".", 1)[0]`. -/
def rsplitDotHead (s : String) : String :=
  let r := s.data.reverse.dropWhile (fun c => decide (c ≠ '.'))
  if r = [] then s else String.mk (r.drop 1).reverse

/-- Model of `s.split("_")` on character lists: splits at every underscore and
keeps empty segments, like Python `str.split` with an explicit separator. -/
def splitUS : List Char → List (List Char)
  | [] => [[]]
  | c :: rest =>
    let r := splitUS rest
    if c = '_' then [] :: r
    else
      match r with
      | [] => [[c]]
      | t :: ts => (c :: t) :: ts

/-! ### Model of Python `int(...)` and `str(...)` on integers -/

/-- Value of a digit-and-underscore group, ignoring the underscores
(the numeric value `int` assigns to a valid literal body). -/
def usValue (l : List Char) : Nat :=
  List.foldl (fun a c => 10 * a + (c.toNat - 48)) 0
    (l.filter (fun c => decide (c.toNat ≠ 95)))

/-- Validity of the part of an integer literal after its first digit: every
character is a digit or an underscore, and an underscore is always followed
by a digit (so no trailing and no doubled underscores), per Python `int`. -/
def usValidAux : List Char → Bool
  | [] => true
  | c :: rest =>
    if c.toNat = 95 then
      (match rest with
       | [] => false
       | d :: _ => pyIsDigit d) && usValidAux rest
    else
      pyIsDigit c && usValidAux rest

/-- Validity of the body of a base-10 integer literal for Python `int`:
nonempty, starts with a digit, and `usValidAux` holds for the rest. -/
def usValid : List Char → Bool
  | [] => false
  | c :: rest => pyIsDigit c && usValidAux rest

/-- Parse a digit-and-underscore body, as Python `int` does after sign handling. -/
def parseUSDigits (l : List Char) : Option Nat :=
  if usValid l then some (usValue l) else none

/-- Parse an optional sign followed by a digit body ( `'+'` is 43, `'-'` is 45 ). -/
def parseSignedBody (l : List Char) : Option Int :=
  match l with
  | [] => none
  | c :: rest =>
    if c.toNat = 43 then (parseUSDigits rest).map Int.ofNat
    else if c.toNat = 45 then (parseUSDigits rest).map (fun n => -(Int.ofNat n))
    else (parseUSDigits (c :: rest)).map Int.ofNat

/-- Model of Python `int(s)` (base 10, ASCII): strip whitespace, optional sign,
then a digit body with optional single underscores between digits.
Returns `none` exactly when `int(s)` raises `ValueError`. -/
def pyIntOfString (s : String) : Option Int := parseSignedBody (pyStripList s.data)

/-- Decimal digits of `n` in order, most significant first, by repeated division;
the fuel argument bounds the recursion (any fuel `≥ n` is enough). Empty for 0. -/
def decReprAux : Nat → Nat → List Char
  | 0, _ => []
  | fuel + 1, n =>
    if n = 0 then [] else decReprAux fuel (n / 10) ++ [Nat.digitChar (n % 10)]

/-- Canonical decimal representation of a natural number (model of Python `str`
on a nonnegative int: no sign, no leading zeros, `"0"` for zero). -/
def decRepr (n : Nat) : List Char := if n = 0 then ['0'] else decReprAux n n

/-- Model of Python `str(i)` for an int: canonical decimal form, `'-'`-prefixed
when negative. -/
def pyIntRepr (i : Int) : String :=
  if i < 0 then String.mk ('-' :: decRepr i.natAbs) else String.mk (decRepr i.natAbs)

/-! ### The script's vocabularies (module-level constants of the source) -/

/-- The `COLOR_TOKENS` list, in source order. -/
def COLOR_TOKENS : List String :=
  ["bronze", "silver", "yellow", "orange", "purple", "green", "black", "white",
   "brown", "grey", "gray", "blue", "red", "teal", "gold"]

/-- The `BASE_TYPE_MAP` dict as an association list in insertion order. -/
def BASE_TYPE_MAP : List (String × String) :=
  [("beam", "beam"), ("beamlong", "long beam"), ("bold", "bold glyph"),
   ("bolt", "bolt pickup"), ("button", "ui button"), ("cockpit", "cockpit module"),
   ("cursor", "ui cursor"), ("enemy", "enemy fighter"), ("engine", "engine pod"),
   ("fire", "thruster flame"), ("gun", "gun icon"), ("laser", "laser bolt"),
   ("meteor", "meteor"), ("numeral", "digit"), ("pill", "pill powerup"),
   ("playerlife", "life icon"), ("playership", "player ship"),
   ("powerup", "powerup"), ("scratch", "hull scratch"), ("shield", "shield icon"),
   ("speed", "speed icon"), ("star", "star icon"), ("things", "badge icon"),
   ("turretbase", "turret base"), ("ufo", "ufo saucer"), ("wing", "wing segment")]

/-- The keys of `BASE_TYPE_MAP` in insertion order. -/
def baseKeys : List String := BASE_TYPE_MAP.map Prod.fst

/-- The `SIZE_TOKENS` dict (each key maps to itself) as an association list. -/
def SIZE_TOKENS : List (String × String) :=
  [("big", "big"), ("med", "med"), ("small", "small"), ("tiny", "tiny"), ("long", "long")]

/-- Stable insert for a sort by string length, longest first (ties keep the
order in which elements are inserted, matching Python's stable `sorted`). -/
def insertLenDesc (x : String) : List String → List String
  | [] => [x]
  | y :: ys => if x.length < y.length then y :: insertLenDesc x ys else x :: y :: ys

/-- Stable sort by string length, longest first: model of
`sorted(keys, key=len, reverse=True)` for Python's stable sort. -/
def sortLenDesc : List String → List String
  | [] => []
  | x :: xs => insertLenDesc x (sortLenDesc xs)

/-- The candidate order `sorted(BASE_TYPE_MAP.keys(), key=len, reverse=True)`
used by `extract_base`. -/
def sortedBaseKeys : List String := sortLenDesc baseKeys

/-! ### Filename parsing (source functions `extract_base`, `split_token`) -/

/-- Model of `extract_base(part)`: strip the trailing digit run, lowercase the
rest, and match it against the known base keys, longest first, by prefix.
Returns (key, remainder, variant). -/
def extract_base (p : String) : String × String × String :=
  let letters := pyLower (dropTrailingDigits p)
  let variant := trailingDigits p
  match sortedBaseKeys.find? (fun candidate => candidate.data.isPrefixOf letters.data) with
  | some candidate => (candidate, String.mk (letters.data.drop candidate.length), variant)
  | none => (letters, "", variant)

/-- Model of `split_token(token)`: (lowercased letters part, trailing digit run). -/
def split_token (t : String) : String × String :=
  (pyLower (dropTrailingDigits t), trailingDigits t)

/-! ### Color classification (source functions `rgb_to_hsv` via `colorsys`,
`classify_color`, `detect_color`) -/

/-- Model of `colorsys.rgb_to_hsv` over exact rationals: returns (h, s, v) with
h the fractional hue in [0, 1). Python's `% 1.0` is `Int.fract` on rationals. -/
def rgb_to_hsv (r g b : ℚ) : ℚ × ℚ × ℚ :=
  let maxc := max r (max g b)
  let minc := min r (min g b)
  let v := maxc
  if minc = maxc then (0, 0, v)
  else
    let s := (maxc - minc) / maxc
    let rc := (maxc - r) / (maxc - minc)
    let gc := (maxc - g) / (maxc - minc)
    let bc := (maxc - b) / (maxc - minc)
    let h0 := if r = maxc then bc - gc else if g = maxc then 2 + rc - bc else 4 + gc - rc
    (Int.fract (h0 / 6), s, v)

/-- Model of `classify_color(rgb)`: pure black short-circuit, then the HSV
threshold buckets of the source, with the float constants taken exactly. -/
def classify_color (rgb : ℚ × ℚ × ℚ) : String :=
  if rgb.1 = 0 ∧ rgb.2.1 = 0 ∧ rgb.2.2 = 0 then "Black"
  else
    let hsv := rgb_to_hsv (rgb.1 / 255) (rgb.2.1 / 255) (rgb.2.2 / 255)
    let s := hsv.2.1
    let v := hsv.2.2
    if s < 0.22 then
      if v > 0.85 then "White"
      else if v > 0.6 then "Light Grey"
      else if v > 0.35 then "Grey"
      else "Dark Grey"
    else
      let hue := hsv.1 * 360
      if hue < 20 ∨ hue ≥ 340 then "Red"
      else if hue < 40 then (if v > 0.45 then "Orange" else "Brown")
      else if hue < 65 then "Yellow"
      else if hue < 160 then "Green"
      else if hue < 210 then "Cyan"
      else if hue < 255 then "Blue"
      else if hue < 310 then "Purple"
      else "Magenta"

/-- Model of `detect_color(name_lower, token_letters, rgb)`: lexical scan of the
name, then of each token's letter part, else the perceptual classifier. -/
def detect_color (name_lower : String) (token_letters : List String)
    (rgb : ℚ × ℚ × ℚ) : String :=
  match COLOR_TOKENS.find? (fun c => pyIn c name_lower) with
  | some c => pyTitle (pyReplace c "gray" "grey")
  | none =>
    match token_letters.findSome?
        (fun letters => COLOR_TOKENS.find? (fun c => pyIn c letters)) with
    | some c => pyTitle (pyReplace c "gray" "grey")
    | none => classify_color rgb

/-! ### Variant normalization (source function `normalize_variant`) -/

/-- Model of `normalize_variant(raw)`: empty stays empty; a string `int` accepts
becomes `str(int(raw))`; anything else is upper-cased. -/
def normalize_variant (raw : String) : String :=
  if raw = "" then ""
  else
    match pyIntOfString raw with
    | some i => pyIntRepr i
    | none => pyUpper raw

/-! ### Image model and region sampling (source function `average_color`) -/

/-- A frame rectangle: the `frame` sub-object's integer fields x, y, w, h. -/
structure Rect where
  x : Nat
  y : Nat
  w : Nat
  h : Nat
deriving DecidableEq

/-- An RGBA image: dimensions plus a pixel function. Models the PIL image after
`convert("RGBA")`; every pixel is a 4-tuple of 0–255 channel values. -/
structure Image where
  width : Nat
  height : Nat
  pix : Nat → Nat → Nat × Nat × Nat × Nat

/-- The pixel list of `image.crop((x, y, x+w, y+h)).getdata()`: row-major over
the rectangle, with PIL's convention that out-of-bounds pixels are transparent
black `(0,0,0,0)`. -/
def regionPixels (image : Image) (f : Rect) : List (Nat × Nat × Nat × Nat) :=
  ((List.range f.h).map (fun j =>
    (List.range f.w).map (fun i =>
      let px := f.x + i
      let py := f.y + j
      if px < image.width ∧ py < image.height then image.pix px py
      else (0, 0, 0, 0)))).flatten

/-- Model of `average_color(image, frame)`: the per-channel mean over the pixels
of the cropped region whose alpha is positive, or `(0, 0, 0)` if there are none. -/
def average_color (image : Image) (f : Rect) : ℚ × ℚ × ℚ :=
  let pixels := (regionPixels image f).filter (fun p => decide (0 < p.2.2.2))
  if pixels = [] then (0, 0, 0)
  else
    ((pixels.map (fun p => (p.1 : ℚ))).sum / pixels.length,
     (pixels.map (fun p => (p.2.1 : ℚ))).sum / pixels.length,
     (pixels.map (fun p => (p.2.2.1 : ℚ))).sum / pixels.length)

/-- A frame record of the atlas document: the `frame` rectangle, the optional
`description` field, and all other fields of the record abstracted as `extra`. -/
structure FrameRecord (α : Type) where
  frame : Rect
  description : Option String
  extra : α

/-! ### Description building (source function `describe_frame`) -/

/-- Model of `joined_variant(primary)` (the `fallback` parameter is never
passed at any call site, so its default `""` is inlined). -/
def joined_variant (primary : String) : String :=
  if primary ≠ "" then "v" ++ primary else ""

/-- Model of `" ".join(filter(None, fragments))`. -/
def joinSpace (l : List String) : String :=
  String.intercalate " " (l.filter (fun s => decide (s ≠ "")))

/-- Model of a guarded generator with `next(..., default)`: the image of the
first element satisfying the condition, or the default. -/
def firstWhere (l : List (String × String)) (cond : String × String → Bool)
    (f : String × String → String) (dflt : String) : String :=
  match l.find? cond with
  | some t => f t
  | none => dflt

/-- Model of the two sequential `color.replace` abbreviations applied after
`detect_color` (`"Light " → "Lt "`, then `"Dark " → "Dk "`, each guarded by
`startswith`). -/
def abbrevColor (color : String) : String :=
  let c1 := if pyStartsWith color "Light " then pyReplace color "Light " "Lt " else color
  if pyStartsWith c1 "Dark " then pyReplace c1 "Dark " "Dk " else c1

/-- Membership of a letters segment in `SIZE_TOKENS` (Python `letters in SIZE_TOKENS`). -/
def isSizeToken (letters : String) : Bool := (SIZE_TOKENS.lookup letters).isSome

/-- The indexing `SIZE_TOKENS[letters]`, only evaluated under `isSizeToken`. -/
def sizeTokenVal (letters : String) : String := (SIZE_TOKENS.lookup letters).getD ""

/-- The part of `describe_frame` below the color sampling, as a function of the
sampled average color: filename parsing, color resolution and the per-base-key
dispatch table, translated branch by branch from the source. -/
def describe_core (filename : String) (rgb : ℚ × ℚ × ℚ) : String :=
  let frame_name := rsplitDotHead filename
  let lower_name := pyLower frame_name
  let parts := (splitUS frame_name.data).map String.mk
  let base_part := parts.headD ""
  let base := extract_base base_part
  let base_key := base.1
  let base_remainder := base.2.1
  let base_variant := base.2.2
  let extra_tokens := (if base_remainder ≠ "" then [base_remainder] else []) ++ parts.tail
  let parsed_tokens := (extra_tokens.filter (fun t => decide (t ≠ ""))).map split_token
  let color0 := detect_color lower_name (parsed_tokens.map Prod.fst) rgb
  let variant_main := normalize_variant base_variant
  let color := abbrevColor color0
  let type_label := (List.lookup base_key BASE_TYPE_MAP).getD
    (pyReplace base_key "playership" "player ship")
  let description :=
    if base_key = "beam" then joinSpace [color, "beam", joined_variant variant_main]
    else if base_key = "beamlong" then
      joinSpace [color, "long beam", joined_variant variant_main]
    else if base_key = "bold" then color ++ " bold glyph"
    else if base_key = "bolt" then color ++ " bolt pickup"
    else if base_key = "button" then color ++ " ui button"
    else if base_key = "cockpit" then
      joinSpace [color, "cockpit", joined_variant variant_main]
    else if base_key = "cursor" then color ++ " ui cursor"
    else if base_key = "enemy" then
      joinSpace [color, "enemy fighter", joined_variant variant_main]
    else if base_key = "engine" then
      joinSpace [color, "engine pod", joined_variant variant_main]
    else if base_key = "fire" then
      joinSpace [color, "thruster flame", joined_variant variant_main]
    else if base_key = "gun" then
      joinSpace [color, "gun icon", joined_variant variant_main]
    else if base_key = "laser" then
      joinSpace [color, "laser bolt", joined_variant variant_main]
    else if base_key = "meteor" then
      let size := firstWhere parsed_tokens (fun t => isSizeToken t.1)
        (fun t => sizeTokenVal t.1) ""
      let ord := firstWhere parsed_tokens
        (fun t => isSizeToken t.1 && decide (t.2 ≠ ""))
        (fun t => normalize_variant t.2) variant_main
      joinSpace [color, size, "meteor", joined_variant ord]
    else if base_key = "numeral" then
      let numeral := if base_remainder ≠ "" then pyUpper base_remainder else variant_main
      color ++ " digit " ++ numeral
    else if base_key = "pill" then color ++ " pill powerup"
    else if base_key = "playerlife" then
      joinSpace [color, "life icon", joined_variant variant_main]
    else if base_key = "playership" then
      let damage := firstWhere parsed_tokens (fun t => decide (t.1 = "damage"))
        (fun t => normalize_variant t.2) ""
      let ship_variant := joined_variant variant_main
      let damage_tag := if damage ≠ "" then "dmg" ++ damage else ""
      joinSpace [color, "player ship", ship_variant, damage_tag]
    else if base_key = "powerup" then
      let flavor := firstWhere parsed_tokens
        (fun t => decide (t.1 ≠ "") && !(COLOR_TOKENS.contains t.1))
        (fun t => t.1) "orb"
      color ++ " " ++ flavor ++ " powerup"
    else if base_key = "scratch" then
      joinSpace [color, "hull scratch", joined_variant variant_main]
    else if base_key = "shield" then
      let level := normalize_variant variant_main
      joinSpace [color, "shield icon", joined_variant level]
    else if base_key = "speed" then color ++ " speed icon"
    else if base_key = "star" then
      let star_variant := if base_remainder ≠ "" then pyUpper base_remainder else variant_main
      joinSpace [color, "star icon", joined_variant star_variant]
    else if base_key = "things" then
      let flavor := if base_remainder ≠ "" then base_remainder
        else firstWhere parsed_tokens (fun t => !(COLOR_TOKENS.contains t.1))
          (fun t => t.1) ""
      joinSpace [color, if flavor ≠ "" then flavor else "badge", "icon"]
    else if base_key = "turretbase" then
      let size := firstWhere parsed_tokens (fun t => isSizeToken t.1)
        (fun t => sizeTokenVal t.1) ""
      joinSpace [color, size, "turret base"]
    else if base_key = "ufo" then color ++ " ufo saucer"
    else if base_key = "wing" then
      joinSpace [color, "wing segment", joined_variant variant_main]
    else joinSpace [color, pyStrip type_label, joined_variant variant_main]
  pyStrip description

/-- Model of `describe_frame(filename, frame, image)`: sample the average color
of the record's rectangle and build the description. -/
def describe_frame {α : Type} (filename : String) (details : FrameRecord α)
    (image : Image) : String :=
  describe_core filename (average_color image details.frame)

/-- Model of the processing loop of `main`: for every entry of the `frames`
mapping (in order), overwrite the `description` field with the built
description, leaving everything else as it is. -/
def update_frames {α : Type} (image : Image)
    (frames : List (String × FrameRecord α)) : List (String × FrameRecord α) :=
  frames.map (fun e =>
    (e.1, { e.2 with description := some (describe_frame e.1 e.2 image) }))

/-- Characters that can occur in a string accepted by `int(...)`: whitespace,
the signs, an underscore, or a digit. -/
def intAllowed (c : Char) : Prop :=
  c.toNat = 32 ∨ (9 ≤ c.toNat ∧ c.toNat ≤ 13) ∨ c.toNat = 43 ∨ c.toNat = 45 ∨
    c.toNat = 95 ∨ (48 ≤ c.toNat ∧ c.toNat ≤ 57)

/-- Spec-side bucket table of §4.3, written with the spec's explicit intervals
(`[340,360) ∪ [0,20) → Red`, …, `[310,340) → Magenta`; value buckets
`White (>0.85)`, `Light Grey (0.6,0.85]`, `Grey (0.35,0.6]`, else `Dark Grey`),
over the same HSV conversion. Hues outside every listed interval fall to `""`,
so agreement with `classify_color` certifies that the table is exhaustive. -/
def spec_classify (rgb : ℚ × ℚ × ℚ) : String :=
  if rgb.1 = 0 ∧ rgb.2.1 = 0 ∧ rgb.2.2 = 0 then "Black"
  else
    let hsv := rgb_to_hsv (rgb.1 / 255) (rgb.2.1 / 255) (rgb.2.2 / 255)
    let s := hsv.2.1
    let v := hsv.2.2
    let hue := hsv.1 * 360
    if s < 0.22 then
      if v > 0.85 then "White"
      else if 0.6 < v ∧ v ≤ 0.85 then "Light Grey"
      else if 0.35 < v ∧ v ≤ 0.6 then "Grey"
      else "Dark Grey"
    else
      if (340 ≤ hue ∧ hue < 360) ∨ (0 ≤ hue ∧ hue < 20) then "Red"
      else if 20 ≤ hue ∧ hue < 40 then (if v > 0.45 then "Orange" else "Brown")
      else if 40 ≤ hue ∧ hue < 65 then "Yellow"
      else if 65 ≤ hue ∧ hue < 160 then "Green"
      else if 160 ≤ hue ∧ hue < 210 then "Cyan"
      else if 210 ≤ hue ∧ hue < 255 then "Blue"
      else if 255 ≤ hue ∧ hue < 310 then "Purple"
      else if 310 ≤ hue ∧ hue < 340 then "Magenta"
      else ""

/-! ### Concrete inputs used by counterexamples and witnesses -/

/-- A 1×1 rectangle at the origin. -/
def rect1 : Rect := ⟨0, 0, 1, 1⟩

/-- A 2×1 rectangle at the origin. -/
def rect2 : Rect := ⟨0, 0, 2, 1⟩

/-- A 1×1 image with a single fully transparent pixel. -/
def transparentImg : Image := ⟨1, 1, fun _ _ => (0, 0, 0, 0)⟩

/-- A 2×1 image whose two opaque pixels average to the grey (127.5, 127.5, 127.5),
i.e. HSV value exactly 0.5. -/
def greyImg : Image :=
  ⟨2, 1, fun x _ => if x = 0 then (127, 127, 127, 255) else (128, 128, 128, 255)⟩

/-- A 1×1 image with a single opaque pure-blue pixel (hue 240°). -/
def blueImg : Image := ⟨1, 1, fun _ _ => (0, 0, 255, 255)⟩

/-- A frame record with the given rectangle and no other payload. -/
def mkRec (r : Rect) : FrameRecord Unit := ⟨r, none, ()⟩

/-! ### Character-level lemmas -/

theorem charToNat_inj {c d : Char} (h : c.toNat = d.toNat) : c = d := by
  rw [← Char.ofNat_toNat c, ← Char.ofNat_toNat d, h]

theorem charOfNat_toNat {n : Nat} (h : n < 55296) : (Char.ofNat n).toNat = n := by
  simp [Char.ofNat, Nat.isValidChar, h, Char.ofNatAux, Char.toNat, UInt32.toNat]

theorem char_toNat_lt (c : Char) : c.toNat < 1114112 := by
  have := c.val.toNat_lt
  rcases c.valid with h | h
  · exact Nat.lt_trans h (by norm_num)
  · exact h.2

theorem asciiUpper_toNat (c : Char) :
    (asciiUpper c).toNat =
      if 97 ≤ c.toNat ∧ c.toNat ≤ 122 then c.toNat - 32 else c.toNat := by
  unfold asciiUpper
  by_cases h : 97 ≤ c.toNat ∧ c.toNat ≤ 122
  · rw [if_pos h, if_pos h, charOfNat_toNat (by omega)]
  · rw [if_neg h, if_neg h]

theorem asciiLower_toNat (c : Char) :
    (asciiLower c).toNat =
      if 65 ≤ c.toNat ∧ c.toNat ≤ 90 then c.toNat + 32 else c.toNat := by
  unfold asciiLower
  by_cases h : 65 ≤ c.toNat ∧ c.toNat ≤ 90
  · rw [if_pos h, if_pos h, charOfNat_toNat (by omega)]
  · rw [if_neg h, if_neg h]

theorem asciiUpper_idem (c : Char) : asciiUpper (asciiUpper c) = asciiUpper c := by
  apply charToNat_inj
  rw [asciiUpper_toNat (asciiUpper c)]
  have ht := asciiUpper_toNat c
  by_cases h : 97 ≤ c.toNat ∧ c.toNat ≤ 122
  · rw [if_pos h] at ht
    rw [ht, if_neg (by omega)]
  · rw [if_neg h] at ht
    rw [ht, if_neg h]

theorem asciiUpper_eq_self_of_intAllowed {c : Char} (h : intAllowed c) :
    asciiUpper c = c := by
  apply charToNat_inj
  rw [asciiUpper_toNat]
  rcases h with h | h | h | h | h | h <;> split_ifs <;> omega

theorem intAllowed_of_asciiUpper {c : Char} (h : intAllowed (asciiUpper c)) :
    intAllowed c ∧ asciiUpper c = c := by
  have ht := asciiUpper_toNat c
  by_cases hl : 97 ≤ c.toNat ∧ c.toNat ≤ 122
  · rw [if_pos hl] at ht
    exfalso
    unfold intAllowed at h
    omega
  · rw [if_neg hl] at ht
    have hc : c = asciiUpper c := charToNat_inj ht.symm
    exact ⟨by rwa [hc], hc.symm⟩

/-! ### Lemmas on the decimal representation and `int` parsing -/

theorem digitChar_toNat {d : Nat} (h : d < 10) : (Nat.digitChar d).toNat = 48 + d := by
  interval_cases d <;> decide

theorem decReprAux_digits (fuel : Nat) :
    ∀ n, ∀ c ∈ decReprAux fuel n, 48 ≤ c.toNat ∧ c.toNat ≤ 57 := by
  induction fuel with
  | zero => intro n c hc; simp [decReprAux] at hc
  | succ fuel ih =>
    intro n c hc
    by_cases hn : n = 0
    · simp [decReprAux, hn] at hc
    · rw [show decReprAux (fuel + 1) n
          = decReprAux fuel (n / 10) ++ [Nat.digitChar (n % 10)] by
        simp [decReprAux, hn]] at hc
      rcases List.mem_append.mp hc with h | h
      · exact ih _ _ h
      · have he : c = Nat.digitChar (n % 10) := by simpa using h
        subst he
        have hm : n % 10 < 10 := Nat.mod_lt _ (by norm_num)
        rw [digitChar_toNat hm]
        omega

theorem decReprAux_foldl (fuel : Nat) :
    ∀ n a, n ≤ fuel →
      List.foldl (fun a c => 10 * a + (c.toNat - 48)) a (decReprAux fuel n)
        = a * 10 ^ (decReprAux fuel n).length + n := by
  induction fuel with
  | zero =>
    intro n a h
    interval_cases n
    simp [decReprAux]
  | succ fuel ih =>
    intro n a h
    by_cases hn : n = 0
    · subst hn; simp [decReprAux]
    · have hrec : n / 10 ≤ fuel := by
        have := Nat.div_lt_self (Nat.pos_of_ne_zero hn) (by norm_num : (1 : Nat) < 10)
        omega
      rw [show decReprAux (fuel + 1) n
          = decReprAux fuel (n / 10) ++ [Nat.digitChar (n % 10)] by
        simp [decReprAux, hn]]
      rw [List.foldl_append, ih _ a hrec]
      have hm : n % 10 < 10 := Nat.mod_lt _ (by norm_num)
      simp only [List.foldl_cons, List.foldl_nil, List.length_append,
        List.length_cons, List.length_nil]
      rw [digitChar_toNat hm]
      have hsub : 48 + n % 10 - 48 = n % 10 := by omega
      rw [hsub]
      generalize (decReprAux fuel (n / 10)).length = L
      rw [pow_succ]
      generalize hP : (10 : ℕ) ^ L = P
      rw [show a * (P * 10) = 10 * (a * P) by ring]
      generalize a * P = X
      omega

theorem decRepr_digits (n : Nat) : ∀ c ∈ decRepr n, 48 ≤ c.toNat ∧ c.toNat ≤ 57 := by
  intro c hc
  unfold decRepr at hc
  by_cases hn : n = 0
  · rw [if_pos hn] at hc
    have : c = '0' := by simpa using hc
    subst this
    decide
  · rw [if_neg hn] at hc
    exact decReprAux_digits n n c hc

theorem decRepr_ne_nil (n : Nat) : decRepr n ≠ [] := by
  unfold decRepr
  by_cases hn : n = 0
  · simp [hn]
  · rw [if_neg hn]
    intro he
    have := decReprAux_foldl n n 0 le_rfl
    rw [he] at this
    simp at this
    exact hn this.symm

theorem usValue_decRepr (n : Nat) : usValue (decRepr n) = n := by
  unfold usValue
  have hfil : (decRepr n).filter (fun c => decide (c.toNat ≠ 95)) = decRepr n := by
    rw [List.filter_eq_self]
    intro c hc
    have := decRepr_digits n c hc
    simp only [decide_eq_true_eq]
    omega
  rw [hfil]
  unfold decRepr
  by_cases hn : n = 0
  · simp [hn]
  · rw [if_neg hn]
    rw [decReprAux_foldl n n 0 le_rfl]
    simp

theorem usValidAux_of_digits :
    ∀ l : List Char, (∀ c ∈ l, 48 ≤ c.toNat ∧ c.toNat ≤ 57) → usValidAux l = true := by
  intro l
  induction l with
  | nil => intro _; rfl
  | cons c rest ih =>
    intro h
    have hc := h c (List.mem_cons_self _ _)
    unfold usValidAux
    rw [if_neg (by omega)]
    have h1 : pyIsDigit c = true := by simp [pyIsDigit]; omega
    rw [h1, ih (fun d hd => h d (List.mem_cons_of_mem _ hd))]
    rfl

theorem usValid_of_digits {l : List Char} (hne : l ≠ [])
    (h : ∀ c ∈ l, 48 ≤ c.toNat ∧ c.toNat ≤ 57) : usValid l = true := by
  cases l with
  | nil => exact absurd rfl hne
  | cons c rest =>
    have hc := h c (List.mem_cons_self _ _)
    have h1 : pyIsDigit c = true := by simp [pyIsDigit]; omega
    show (pyIsDigit c && usValidAux rest) = true
    rw [h1, usValidAux_of_digits rest (fun d hd => h d (List.mem_cons_of_mem _ hd))]
    rfl

theorem parseUSDigits_decRepr (n : Nat) : parseUSDigits (decRepr n) = some n := by
  unfold parseUSDigits
  rw [usValid_of_digits (decRepr_ne_nil n) (decRepr_digits n), if_pos rfl,
    usValue_decRepr]

theorem dropWhile_eq_self_of_none {p : Char → Bool} {l : List Char}
    (h : ∀ c ∈ l, p c = false) : l.dropWhile p = l := by
  cases l with
  | nil => rfl
  | cons c rest =>
    rw [List.dropWhile_cons, h c (List.mem_cons_self _ _)]
    simp

theorem pyStripList_eq_self {l : List Char} (h : ∀ c ∈ l, pyIsSpace c = false) :
    pyStripList l = l := by
  unfold pyStripList
  rw [dropWhile_eq_self_of_none h,
    dropWhile_eq_self_of_none (fun c hc => h c (List.mem_reverse.mp hc)),
    List.reverse_reverse]

theorem pyIsSpace_of_digit {c : Char} (h : 48 ≤ c.toNat ∧ c.toNat ≤ 57) :
    pyIsSpace c = false := by
  simp [pyIsSpace]
  omega

theorem parseSignedBody_cons (c : Char) (rest : List Char) :
    parseSignedBody (c :: rest) =
      if c.toNat = 43 then (parseUSDigits rest).map Int.ofNat
      else if c.toNat = 45 then (parseUSDigits rest).map (fun n => -(Int.ofNat n))
      else (parseUSDigits (c :: rest)).map Int.ofNat := rfl

theorem pyIntOfString_pyIntRepr (i : Int) : pyIntOfString (pyIntRepr i) = some i := by
  unfold pyIntRepr pyIntOfString
  by_cases hneg : i < 0
  · rw [if_pos hneg]
    show parseSignedBody (pyStripList ('-' :: decRepr i.natAbs)) = some i
    rw [pyStripList_eq_self (by
      intro c hc
      rcases List.mem_cons.mp hc with h | h
      · subst h; decide
      · exact pyIsSpace_of_digit (decRepr_digits _ c h))]
    rw [parseSignedBody_cons, if_neg (by decide), if_pos (by decide),
      parseUSDigits_decRepr]
    show some (-(Int.ofNat i.natAbs)) = some i
    congr 1
    simp only [Int.ofNat_eq_natCast]
    omega
  · rw [if_neg hneg]
    show parseSignedBody (pyStripList (decRepr i.natAbs)) = some i
    rw [pyStripList_eq_self (fun c hc => pyIsSpace_of_digit (decRepr_digits _ c hc))]
    obtain ⟨c, rest, he⟩ := List.exists_cons_of_ne_nil (decRepr_ne_nil i.natAbs)
    rw [he]
    have hc := decRepr_digits i.natAbs c (he ▸ List.mem_cons_self _ _)
    rw [parseSignedBody_cons, if_neg (by omega), if_neg (by omega), ← he,
      parseUSDigits_decRepr]
    show some (Int.ofNat i.natAbs) = some i
    congr 1
    simp only [Int.ofNat_eq_natCast]
    omega

/-! ### Characters of a string accepted by the `int` model -/

theorem usValidAux_chars :
    ∀ l : List Char, usValidAux l = true →
      ∀ c ∈ l, (48 ≤ c.toNat ∧ c.toNat ≤ 57) ∨ c.toNat = 95 := by
  intro l
  induction l with
  | nil => intro _ c hc; simp at hc
  | cons c rest ih =>
    intro h d hd
    unfold usValidAux at h
    by_cases h95 : c.toNat = 95
    · rw [if_pos h95] at h
      have h2 := (Bool.and_eq_true _ _).mp h
      rcases List.mem_cons.mp hd with he | he
      · subst he; right; exact h95
      · exact ih h2.2 d he
    · rw [if_neg h95] at h
      have h2 := (Bool.and_eq_true _ _).mp h
      rcases List.mem_cons.mp hd with he | he
      · subst he
        left
        have := h2.1
        simp [pyIsDigit] at this
        exact this
      · exact ih h2.2 d he

theorem usValid_chars {l : List Char} (h : usValid l = true) :
    ∀ c ∈ l, (48 ≤ c.toNat ∧ c.toNat ≤ 57) ∨ c.toNat = 95 := by
  cases l with
  | nil => intro c hc; simp at hc
  | cons c rest =>
    intro d hd
    have h2 := (Bool.and_eq_true _ _).mp (h : (pyIsDigit c && usValidAux rest) = true)
    rcases List.mem_cons.mp hd with he | he
    · subst he
      left
      have := h2.1
      simp [pyIsDigit] at this
      exact this
    · exact usValidAux_chars rest h2.2 d he

theorem parseUSDigits_chars {l : List Char} {n : Nat} (h : parseUSDigits l = some n) :
    ∀ c ∈ l, (48 ≤ c.toNat ∧ c.toNat ≤ 57) ∨ c.toNat = 95 := by
  unfold parseUSDigits at h
  by_cases hv : usValid l = true
  · exact usValid_chars hv
  · rw [if_neg (by simpa using hv)] at h
    exact absurd h (by simp)

theorem parseSignedBody_chars {l : List Char} {i : Int}
    (h : parseSignedBody l = some i) : ∀ c ∈ l, intAllowed c := by
  cases l with
  | nil => intro c hc; simp at hc
  | cons c rest =>
    rw [parseSignedBody_cons] at h
    intro d hd
    by_cases h43 : c.toNat = 43
    · rw [if_pos h43] at h
      obtain ⟨n, hn, _⟩ := Option.map_eq_some'.mp h
      rcases List.mem_cons.mp hd with he | he
      · subst he; unfold intAllowed; omega
      · have := parseUSDigits_chars hn d he
        unfold intAllowed; omega
    · rw [if_neg h43] at h
      by_cases h45 : c.toNat = 45
      · rw [if_pos h45] at h
        obtain ⟨n, hn, _⟩ := Option.map_eq_some'.mp h
        rcases List.mem_cons.mp hd with he | he
        · subst he; unfold intAllowed; omega
        · have := parseUSDigits_chars hn d he
          unfold intAllowed; omega
      · rw [if_neg h45] at h
        obtain ⟨n, hn, _⟩ := Option.map_eq_some'.mp h
        have := parseUSDigits_chars hn d hd
        unfold intAllowed; omega

theorem mem_dropWhile_or {p : Char → Bool} {l : List Char} {c : Char} (hc : c ∈ l) :
    c ∈ l.dropWhile p ∨ p c = true := by
  have hsplit : l.takeWhile p ++ l.dropWhile p = l :=
    List.takeWhile_append_dropWhile (p := p) (l := l)
  rcases List.mem_append.mp (hsplit ▸ hc) with h | h
  · exact Or.inr (List.mem_takeWhile_imp h)
  · exact Or.inl h

theorem mem_stripList_or {l : List Char} {c : Char} (hc : c ∈ l) :
    c ∈ pyStripList l ∨ pyIsSpace c = true := by
  unfold pyStripList
  rcases mem_dropWhile_or (p := pyIsSpace) hc with h | h
  · rcases mem_dropWhile_or (p := pyIsSpace) (List.mem_reverse.mpr h) with h2 | h2
    · exact Or.inl (List.mem_reverse.mpr h2)
    · exact Or.inr h2
  · exact Or.inr h

theorem pyIntOfString_chars {s : String} {i : Int} (h : pyIntOfString s = some i) :
    ∀ c ∈ s.data, intAllowed c := by
  intro c hc
  rcases mem_stripList_or hc with h2 | h2
  · exact parseSignedBody_chars h c h2
  · unfold intAllowed
    simp [pyIsSpace] at h2
    omega

theorem pyUpper_parse_none {s : String} (h : pyIntOfString s = none) :
    pyIntOfString (pyUpper s) = none := by
  cases hp : pyIntOfString (pyUpper s) with
  | none => rfl
  | some i =>
    exfalso
    have hall : ∀ c ∈ (pyUpper s).data, intAllowed c := pyIntOfString_chars hp
    have hfix : ∀ c ∈ s.data, asciiUpper c = c := by
      intro c hc
      have : intAllowed (asciiUpper c) := by
        apply hall
        show asciiUpper c ∈ (s.data.map asciiUpper)
        exact List.mem_map_of_mem _ hc
      exact (intAllowed_of_asciiUpper this).2
    have hself : pyUpper s = s := by
      show String.mk (s.data.map asciiUpper) = s
      rw [List.map_congr_left hfix]
      cases s
      simp
    rw [hself, h] at hp
    exact Option.noConfusion hp

theorem pyUpper_idem (s : String) : pyUpper (pyUpper s) = pyUpper s := by
  show String.mk ((s.data.map asciiUpper).map asciiUpper) = String.mk (s.data.map asciiUpper)
  rw [List.map_map]
  congr 1
  exact List.map_congr_left (fun c _ => asciiUpper_idem c)

theorem pyUpper_eq_empty_iff (s : String) : pyUpper s = "" ↔ s = "" := by
  constructor
  · intro h
    have : s.data.map asciiUpper = [] := congrArg String.data h
    cases s with
    | mk data =>
      cases data with
      | nil => rfl
      | cons c rest => simp at this
  · intro h; subst h; rfl

theorem pyIntRepr_ne_empty (i : Int) : pyIntRepr i ≠ "" := by
  unfold pyIntRepr
  by_cases hneg : i < 0
  · rw [if_pos hneg]
    intro h
    have : '-' :: decRepr i.natAbs = [] := congrArg String.data h
    exact List.noConfusion this
  · rw [if_neg hneg]
    intro h
    exact decRepr_ne_nil i.natAbs (congrArg String.data h)

/-! ### Behaviour of `normalize_variant` -/

theorem normalize_variant_of_some {s : String} {i : Int} (hs : s ≠ "")
    (h : pyIntOfString s = some i) : normalize_variant s = pyIntRepr i := by
  unfold normalize_variant
  rw [if_neg hs, h]

theorem normalize_variant_of_none {s : String} (hs : s ≠ "")
    (h : pyIntOfString s = none) : normalize_variant s = pyUpper s := by
  unfold normalize_variant
  rw [if_neg hs, h]

/-! ### The longest-first candidate order of `extract_base` -/

theorem mem_insertLenDesc {x a : String} :
    ∀ l, a ∈ insertLenDesc x l ↔ a = x ∨ a ∈ l := by
  intro l
  induction l with
  | nil => simp [insertLenDesc]
  | cons y ys ih =>
    unfold insertLenDesc
    by_cases h : x.length < y.length
    · rw [if_pos h]
      simp only [List.mem_cons, ih]
      tauto
    · rw [if_neg h]
      simp only [List.mem_cons]

theorem mem_sortLenDesc {a : String} : ∀ l, a ∈ sortLenDesc l ↔ a ∈ l := by
  intro l
  induction l with
  | nil => simp [sortLenDesc]
  | cons y ys ih =>
    unfold sortLenDesc
    rw [mem_insertLenDesc, ih]
    simp only [List.mem_cons]

theorem pairwise_insertLenDesc {x : String} :
    ∀ l, List.Pairwise (fun u v : String => v.length ≤ u.length) l →
      List.Pairwise (fun u v : String => v.length ≤ u.length) (insertLenDesc x l) := by
  intro l
  induction l with
  | nil => intro _; simp [insertLenDesc]
  | cons y ys ih =>
    intro h
    rw [List.pairwise_cons] at h
    unfold insertLenDesc
    by_cases hlen : x.length < y.length
    · rw [if_pos hlen, List.pairwise_cons]
      refine ⟨?_, ih h.2⟩
      intro z hz
      rcases (mem_insertLenDesc ys).mp hz with he | he
      · subst he; omega
      · exact h.1 z he
    · rw [if_neg hlen, List.pairwise_cons]
      refine ⟨?_, List.pairwise_cons.mpr h⟩
      intro z hz
      rcases List.mem_cons.mp hz with he | he
      · subst he; omega
      · have := h.1 z he
        omega

theorem pairwise_sortLenDesc :
    ∀ l, List.Pairwise (fun u v : String => v.length ≤ u.length) (sortLenDesc l) := by
  intro l
  induction l with
  | nil => simp [sortLenDesc]
  | cons y ys ih => exact pairwise_insertLenDesc (sortLenDesc ys) ih

theorem find?_longest {p : String → Bool} :
    ∀ l : List String,
      List.Pairwise (fun u v : String => v.length ≤ u.length) l →
      ∀ k, l.find? p = some k → p k = true ∧ ∀ a ∈ l, p a = true → a.length ≤ k.length := by
  intro l
  induction l with
  | nil => intro _ k h; simp at h
  | cons y ys ih =>
    intro hp k h
    rw [List.pairwise_cons] at hp
    rw [List.find?_cons] at h
    by_cases hy : p y = true
    · rw [hy] at h
      simp only [cond_true, Option.some.injEq] at h
      subst h
      refine ⟨hy, ?_⟩
      intro a ha _
      rcases List.mem_cons.mp ha with he | he
      · subst he; exact le_rfl
      · exact hp.1 a he
    · rw [Bool.not_eq_true] at hy
      rw [hy] at h
      simp only [cond_false] at h
      obtain ⟨h1, h2⟩ := ih hp.2 k h
      refine ⟨h1, ?_⟩
      intro a ha hpa
      rcases List.mem_cons.mp ha with he | he
      · subst he; rw [hpa] at hy; exact Bool.noConfusion hy
      · exact h2 a he hpa

theorem pairwise_sortedBaseKeys :
    List.Pairwise (fun u v : String => v.length ≤ u.length) sortedBaseKeys :=
  pairwise_sortLenDesc baseKeys

theorem mem_sortedBaseKeys {a : String} : a ∈ sortedBaseKeys ↔ a ∈ baseKeys :=
  mem_sortLenDesc baseKeys

theorem normalize_variant_idem (s : String) :
    normalize_variant (normalize_variant s) = normalize_variant s := by
  by_cases h0 : s = ""
  · subst h0; rfl
  · cases hp : pyIntOfString s with
    | some i =>
      rw [normalize_variant_of_some h0 hp,
        normalize_variant_of_some (pyIntRepr_ne_empty i) (pyIntOfString_pyIntRepr i)]
    | none =>
      rw [normalize_variant_of_none h0 hp,
        normalize_variant_of_none ((not_iff_not.mpr (pyUpper_eq_empty_iff s)).mpr h0)
          (pyUpper_parse_none hp),
        pyUpper_idem]


/-! ### Supporting lemmas for the claims -/

theorem string_data_ne_nil {s : String} (h : s ≠ "") : s.data ≠ [] := by
  intro hd
  apply h
  cases s
  simp only at hd
  rw [hd]

theorem pyIntRepr_ofNat (n : Nat) : pyIntRepr (Int.ofNat n) = String.mk (decRepr n) := by
  unfold pyIntRepr
  rw [if_neg (not_lt.mpr (by exact Int.natCast_nonneg n))]
  congr 1

theorem digits_parse {s : String} (hne : s ≠ "")
    (hd : ∀ c ∈ s.data, 48 ≤ c.toNat ∧ c.toNat ≤ 57) :
    pyIntOfString s = some (Int.ofNat (usValue s.data)) := by
  unfold pyIntOfString
  rw [pyStripList_eq_self (fun c hc => pyIsSpace_of_digit (hd c hc))]
  obtain ⟨c, rest, he⟩ := List.exists_cons_of_ne_nil (string_data_ne_nil hne)
  rw [he, parseSignedBody_cons]
  have hc := hd c (he ▸ List.mem_cons_self _ _)
  rw [if_neg (by omega), if_neg (by omega), ← he]
  unfold parseUSDigits
  rw [usValid_of_digits (string_data_ne_nil hne) hd, if_pos rfl]
  rfl

theorem extract_base_found {p k0 : String}
    (hf : sortedBaseKeys.find?
        (fun candidate => candidate.data.isPrefixOf (pyLower (dropTrailingDigits p)).data)
      = some k0) :
    extract_base p
      = (k0, String.mk ((pyLower (dropTrailingDigits p)).data.drop k0.length),
          trailingDigits p) := by
  simp only [extract_base]
  rw [hf]

theorem extract_base_notfound {p : String}
    (hf : sortedBaseKeys.find?
        (fun candidate => candidate.data.isPrefixOf (pyLower (dropTrailingDigits p)).data)
      = none) :
    extract_base p = (pyLower (dropTrailingDigits p), "", trailingDigits p) := by
  simp only [extract_base]
  rw [hf]

/-! ### The claims -/

/-- Claim C6: `normalize_variant` maps every string of decimal digits to its
canonical decimal form with leading zeros stripped (`"007" ↦ "7"`), maps the
empty string to the empty string, and upper-cases any string that does not
parse as an integer. -/
theorem claim_C6 :
    (∀ s : String, s ≠ "" → (∀ c ∈ s.data, 48 ≤ c.toNat ∧ c.toNat ≤ 57) →
        normalize_variant s = String.mk (decRepr (usValue s.data))) ∧
    normalize_variant "007" = "7" ∧
    normalize_variant "" = "" ∧
    (∀ s : String, pyIntOfString s = none → normalize_variant s = pyUpper s) := by
  refine ⟨?_, by decide, rfl, ?_⟩
  · intro s hne hd
    rw [normalize_variant_of_some hne (digits_parse hne hd), pyIntRepr_ofNat]
  · intro s h
    by_cases hse : s = ""
    · subst hse; rfl
    · exact normalize_variant_of_none hse h

/-- Witness for C6 at the concrete inputs `"007"` and `"a7"`. -/
theorem claim_C6_witness :
    (("007" : String) ≠ "" ∧ (∀ c ∈ ("007" : String).data, 48 ≤ c.toNat ∧ c.toNat ≤ 57) ∧
      normalize_variant "007" = String.mk (decRepr (usValue ("007" : String).data))) ∧
    (pyIntOfString "a7" = none ∧ normalize_variant "a7" = pyUpper "a7") :=
  ⟨⟨by decide, by decide, claim_C6.1 "007" (by decide) (by decide)⟩,
   ⟨by decide, claim_C6.2.2.2 "a7" (by decide)⟩⟩

/-- Claim C10: `normalize_variant` is idempotent; consequently the shield branch
of `describe_frame`, which normalizes the already-normalized base variant a
second time, produces the same `v{variant}` fragment as a single normalization. -/
theorem claim_C10 :
    (∀ s : String, normalize_variant (normalize_variant s) = normalize_variant s) ∧
    (∀ raw : String,
        joined_variant (normalize_variant (normalize_variant raw))
          = joined_variant (normalize_variant raw)) := by
  refine ⟨normalize_variant_idem, fun raw => ?_⟩
  rw [normalize_variant_idem]

/-- Claim C5: `extract_base` matches base-type keys longest-first: whenever some
known key is a prefix of the base segment's letter part, the returned key is a
known key, a prefix, at least as long as every other matching key, the
remainder is what follows it, and the variant is the trailing digit run; the
segment `"beamlong2"` resolves to `("beamlong", "", "2")`; and a segment whose
letters start with no known key falls back to the full lowercased letters with
empty remainder and the trailing digits. -/
theorem claim_C5 :
    (∀ p : String, ∀ k ∈ baseKeys,
        k.data.isPrefixOf (pyLower (dropTrailingDigits p)).data = true →
        (extract_base p).1 ∈ baseKeys ∧
        (extract_base p).1.data.isPrefixOf (pyLower (dropTrailingDigits p)).data = true ∧
        k.length ≤ (extract_base p).1.length ∧
        (extract_base p).2.1
          = String.mk ((pyLower (dropTrailingDigits p)).data.drop (extract_base p).1.length) ∧
        (extract_base p).2.2 = trailingDigits p) ∧
    (∀ p : String,
        (∀ k ∈ baseKeys,
          k.data.isPrefixOf (pyLower (dropTrailingDigits p)).data = false) →
        extract_base p = (pyLower (dropTrailingDigits p), "", trailingDigits p)) ∧
    extract_base "beamlong2" = ("beamlong", "", "2") := by
  refine ⟨?_, ?_, by decide⟩
  · intro p k hk hpre
    cases hf : sortedBaseKeys.find?
        (fun candidate => candidate.data.isPrefixOf (pyLower (dropTrailingDigits p)).data) with
    | none =>
      exfalso
      have := List.find?_eq_none.mp hf k (mem_sortedBaseKeys.mpr hk)
      exact this hpre
    | some k0 =>
      have he := extract_base_found hf
      obtain ⟨h1, h2⟩ := find?_longest sortedBaseKeys pairwise_sortedBaseKeys k0 hf
      rw [he]
      refine ⟨mem_sortedBaseKeys.mp (List.mem_of_find?_eq_some hf), h1, ?_, rfl, rfl⟩
      exact h2 k (mem_sortedBaseKeys.mpr hk) hpre
  · intro p hnone
    apply extract_base_notfound
    rw [List.find?_eq_none]
    intro k hk
    rw [hnone k (mem_sortedBaseKeys.mp hk)]
    simp

/-- Witness for C5 at the concrete segment `"beamlong2"`, whose letter part
`"beamlong"` extends both the known keys `"beam"` and `"beamlong"`. -/
theorem claim_C5_witness :
    ("beam" ∈ baseKeys ∧
      ("beam" : String).data.isPrefixOf
        (pyLower (dropTrailingDigits "beamlong2")).data = true ∧
      (extract_base "beamlong2").1 ∈ baseKeys ∧
      ("beam" : String).length ≤ (extract_base "beamlong2").1.length) ∧
    ((∀ k ∈ baseKeys,
        k.data.isPrefixOf (pyLower (dropTrailingDigits "xyz7")).data = false) ∧
      extract_base "xyz7" = (pyLower (dropTrailingDigits "xyz7"), "", trailingDigits "xyz7")) := by
  constructor
  · have h := claim_C5.1 "beamlong2" "beam" (by decide) (by decide)
    exact ⟨by decide, by decide, h.1, h.2.2.1⟩
  · exact ⟨by decide, claim_C5.2.1 "xyz7" (by decide)⟩

/-- Claim C9: the processing loop changes only the `description` field: the
frame keys are unchanged in order, and for every record the `frame` rectangle
and the abstracted remaining fields are identical before and after. -/
theorem claim_C9 {α : Type} (image : Image) (frames : List (String × FrameRecord α)) :
    (update_frames image frames).map Prod.fst = frames.map Prod.fst ∧
    List.Forall₂ (fun e e2 : String × FrameRecord α =>
        e2.1 = e.1 ∧ e2.2.frame = e.2.frame ∧ e2.2.extra = e.2.extra)
      frames (update_frames image frames) := by
  constructor
  · unfold update_frames
    rw [List.map_map]
    rfl
  · unfold update_frames
    induction frames with
    | nil => exact List.Forall₂.nil
    | cons e es ih =>
      rw [List.map_cons]
      exact List.Forall₂.cons ⟨rfl, rfl, rfl⟩ ih


/-- Claim C3: for every name containing one of the fixed color tokens as a
substring, `detect_color` returns the first matching token title-cased with
`"gray"` rewritten to `"grey"` (so `"Gray"` never appears), and the result is
identical for any two sampled RGB triples: the perceptual classifier is never
consulted. -/
theorem claim_C3 (name_lower : String) (token_letters : List String)
    (rgb rgb2 : ℚ × ℚ × ℚ)
    (h : ∃ t ∈ COLOR_TOKENS, pyIn t name_lower = true) :
    ∃ c, COLOR_TOKENS.find? (fun t => pyIn t name_lower) = some c ∧
      detect_color name_lower token_letters rgb = pyTitle (pyReplace c "gray" "grey") ∧
      detect_color name_lower token_letters rgb
        = detect_color name_lower token_letters rgb2 ∧
      detect_color name_lower token_letters rgb ≠ "Gray" := by
  obtain ⟨t, ht, hp⟩ := h
  have hsome : (COLOR_TOKENS.find? (fun u => pyIn u name_lower)).isSome := by
    rw [List.find?_isSome]
    exact ⟨t, ht, hp⟩
  obtain ⟨c, hc⟩ := Option.isSome_iff_exists.mp hsome
  refine ⟨c, hc, ?_, ?_, ?_⟩
  · unfold detect_color
    rw [hc]
  · unfold detect_color
    rw [hc]
  · have hmem : c ∈ COLOR_TOKENS := List.mem_of_find?_eq_some hc
    have hng : pyTitle (pyReplace c "gray" "grey") ≠ "Gray" := by
      fin_cases hmem <;> decide
    unfold detect_color
    rw [hc]
    exact hng

/-- Witness for C3 at the concrete name `"redlaser_03"` and two different RGB
triples. -/
theorem claim_C3_witness :
    (∃ t ∈ COLOR_TOKENS, pyIn t "redlaser_03" = true) ∧
    (∃ c, COLOR_TOKENS.find? (fun t => pyIn t "redlaser_03") = some c ∧
      detect_color "redlaser_03" [""] (0, 0, 0) = pyTitle (pyReplace c "gray" "grey") ∧
      detect_color "redlaser_03" [""] (0, 0, 0)
        = detect_color "redlaser_03" [""] (9, 200, 3) ∧
      detect_color "redlaser_03" [""] (0, 0, 0) ≠ "Gray") :=
  ⟨by decide, claim_C3 "redlaser_03" [""] (0, 0, 0) (9, 200, 3) (by decide)⟩


theorem rgb_to_hsv_h_bounds (a b c : ℚ) :
    0 ≤ (rgb_to_hsv a b c).1 ∧ (rgb_to_hsv a b c).1 < 1 := by
  simp only [rgb_to_hsv]
  by_cases h : min a (min b c) = max a (max b c)
  · rw [if_pos h]
    exact ⟨le_refl 0, by norm_num⟩
  · rw [if_neg h]
    exact ⟨Int.fract_nonneg _, Int.fract_lt_one _⟩

theorem value_buckets (hv : ℚ) :
    (if hv > 0.85 then "White" else if hv > 0.6 then "Light Grey"
     else if hv > 0.35 then "Grey" else "Dark Grey")
    = (if hv > 0.85 then "White" else if 0.6 < hv ∧ hv ≤ 0.85 then "Light Grey"
       else if 0.35 < hv ∧ hv ≤ 0.6 then "Grey" else "Dark Grey") := by
  by_cases h85 : hv > 0.85
  · rw [if_pos h85, if_pos h85]
  · rw [if_neg h85, if_neg h85]
    by_cases h6 : hv > 0.6
    · have hp : 0.6 < hv ∧ hv ≤ 0.85 := ⟨h6, by linarith⟩
      rw [if_pos h6, if_pos hp]
    · have hng : ¬(0.6 < hv ∧ hv ≤ 0.85) := by rintro ⟨ha, _⟩; exact h6 ha
      rw [if_neg h6, if_neg hng]
      by_cases h35 : hv > 0.35
      · have hp2 : 0.35 < hv ∧ hv ≤ 0.6 := ⟨h35, by linarith⟩
        rw [if_pos h35, if_pos hp2]
      · have hng2 : ¬(0.35 < hv ∧ hv ≤ 0.6) := by rintro ⟨ha, _⟩; exact h35 ha
        rw [if_neg h35, if_neg hng2]

theorem hue_buckets (hue hv : ℚ) (hl : 0 ≤ hue) (hu : hue < 360) :
    (if hue < 20 ∨ hue ≥ 340 then "Red"
     else if hue < 40 then (if hv > 0.45 then "Orange" else "Brown")
     else if hue < 65 then "Yellow"
     else if hue < 160 then "Green"
     else if hue < 210 then "Cyan"
     else if hue < 255 then "Blue"
     else if hue < 310 then "Purple"
     else "Magenta")
    = (if (340 ≤ hue ∧ hue < 360) ∨ (0 ≤ hue ∧ hue < 20) then "Red"
       else if 20 ≤ hue ∧ hue < 40 then (if hv > 0.45 then "Orange" else "Brown")
       else if 40 ≤ hue ∧ hue < 65 then "Yellow"
       else if 65 ≤ hue ∧ hue < 160 then "Green"
       else if 160 ≤ hue ∧ hue < 210 then "Cyan"
       else if 210 ≤ hue ∧ hue < 255 then "Blue"
       else if 255 ≤ hue ∧ hue < 310 then "Purple"
       else if 310 ≤ hue ∧ hue < 340 then "Magenta"
       else "") := by
  by_cases h1 : hue < 20 ∨ hue ≥ 340
  · have hp : (340 ≤ hue ∧ hue < 360) ∨ (0 ≤ hue ∧ hue < 20) := by
      rcases h1 with h | h
      · exact Or.inr ⟨hl, h⟩
      · exact Or.inl ⟨h, hu⟩
    rw [if_pos h1, if_pos hp]
  · have h20 : 20 ≤ hue := by
      rcases not_or.mp h1 with ⟨ha, _⟩
      exact not_lt.mp ha
    have h340 : hue < 340 := by
      rcases not_or.mp h1 with ⟨_, hb⟩
      exact not_le.mp hb
    have hng : ¬((340 ≤ hue ∧ hue < 360) ∨ (0 ≤ hue ∧ hue < 20)) := by
      rintro (⟨ha, _⟩ | ⟨_, hb⟩) <;> linarith
    rw [if_neg h1, if_neg hng]
    by_cases h2 : hue < 40
    · have hp2 : 20 ≤ hue ∧ hue < 40 := ⟨h20, h2⟩
      rw [if_pos h2, if_pos hp2]
    · have hng2 : ¬(20 ≤ hue ∧ hue < 40) := by rintro ⟨_, hb⟩; exact h2 hb
      rw [if_neg h2, if_neg hng2]
      by_cases h3 : hue < 65
      · have hp3 : 40 ≤ hue ∧ hue < 65 := ⟨not_lt.mp h2, h3⟩
        rw [if_pos h3, if_pos hp3]
      · have hng3 : ¬(40 ≤ hue ∧ hue < 65) := by rintro ⟨_, hb⟩; exact h3 hb
        rw [if_neg h3, if_neg hng3]
        by_cases h4 : hue < 160
        · have hp4 : 65 ≤ hue ∧ hue < 160 := ⟨not_lt.mp h3, h4⟩
          rw [if_pos h4, if_pos hp4]
        · have hng4 : ¬(65 ≤ hue ∧ hue < 160) := by rintro ⟨_, hb⟩; exact h4 hb
          rw [if_neg h4, if_neg hng4]
          by_cases h5 : hue < 210
          · have hp5 : 160 ≤ hue ∧ hue < 210 := ⟨not_lt.mp h4, h5⟩
            rw [if_pos h5, if_pos hp5]
          · have hng5 : ¬(160 ≤ hue ∧ hue < 210) := by rintro ⟨_, hb⟩; exact h5 hb
            rw [if_neg h5, if_neg hng5]
            by_cases h6 : hue < 255
            · have hp6 : 210 ≤ hue ∧ hue < 255 := ⟨not_lt.mp h5, h6⟩
              rw [if_pos h6, if_pos hp6]
            · have hng6 : ¬(210 ≤ hue ∧ hue < 255) := by rintro ⟨_, hb⟩; exact h6 hb
              rw [if_neg h6, if_neg hng6]
              by_cases h7 : hue < 310
              · have hp7 : 255 ≤ hue ∧ hue < 310 := ⟨not_lt.mp h6, h7⟩
                rw [if_pos h7, if_pos hp7]
              · have hng7b : ¬(255 ≤ hue ∧ hue < 310) := by rintro ⟨_, hb⟩; exact h7 hb
                have hp8 : 310 ≤ hue ∧ hue < 340 := ⟨not_lt.mp h7, h340⟩
                rw [if_neg h7, if_neg hng7b, if_pos hp8]

/-- Claim C4: `classify_color` implements exactly the spec's HSV bucket table:
pure black short-circuits to `"Black"`, near-greyscale saturation buckets by
value into White / Light Grey / Grey / Dark Grey, and otherwise the hue in
degrees selects the named ranges `[340,360) ∪ [0,20) → Red`, …,
`[310,340) → Magenta` (with Orange vs Brown decided by value on `[20,40)`). -/
theorem claim_C4 (rgb : ℚ × ℚ × ℚ) : classify_color rgb = spec_classify rgb := by
  unfold classify_color spec_classify
  by_cases hb : rgb.1 = 0 ∧ rgb.2.1 = 0 ∧ rgb.2.2 = 0
  · rw [if_pos hb, if_pos hb]
  · rw [if_neg hb, if_neg hb]
    obtain ⟨h0, h1⟩ :=
      rgb_to_hsv_h_bounds (rgb.1 / 255) (rgb.2.1 / 255) (rgb.2.2 / 255)
    generalize rgb_to_hsv (rgb.1 / 255) (rgb.2.1 / 255) (rgb.2.2 / 255) = t at h0 h1 ⊢
    obtain ⟨hh, hs, hv⟩ := t
    dsimp only at h0 h1 ⊢
    have hl : 0 ≤ hh * 360 := mul_nonneg h0 (by norm_num)
    have hu : hh * 360 < 360 := by
      have := mul_lt_mul_of_pos_right h1 (by norm_num : (0 : ℚ) < 360)
      linarith
    by_cases hsat : hs < 0.22
    · rw [if_pos hsat, if_pos hsat]
      exact value_buckets hv
    · rw [if_neg hsat, if_neg hsat]
      exact hue_buckets (hh * 360) hv hl hu


/-- Claim C8: when no pixel of the frame rectangle has alpha greater than zero,
`average_color` returns the defined default `(0, 0, 0)` instead of failing,
`classify_color` maps that triple to `"Black"`, and hence a fully transparent
frame whose name (and tokens) contain no color token resolves to the color
`"Black"`. -/
theorem claim_C8 (image : Image) (f : Rect)
    (halpha : ∀ p ∈ regionPixels image f, p.2.2.2 = 0) :
    average_color image f = (0, 0, 0) ∧
    classify_color (0, 0, 0) = "Black" ∧
    ∀ (name_lower : String) (token_letters : List String),
      (∀ t ∈ COLOR_TOKENS, pyIn t name_lower = false) →
      (∀ letters ∈ token_letters, ∀ t ∈ COLOR_TOKENS, pyIn t letters = false) →
      detect_color name_lower token_letters (average_color image f) = "Black" := by
  have hfil : (regionPixels image f).filter (fun p => decide (0 < p.2.2.2)) = [] := by
    rw [List.filter_eq_nil_iff]
    intro p hp
    simp [halpha p hp]
  have havg : average_color image f = (0, 0, 0) := by
    unfold average_color
    rw [hfil]
    rfl
  have hblack : classify_color (0, 0, 0) = "Black" := by
    unfold classify_color
    rw [if_pos ⟨rfl, rfl, rfl⟩]
  refine ⟨havg, hblack, ?_⟩
  intro name_lower token_letters h1 h2
  unfold detect_color
  rw [List.find?_eq_none.mpr (fun t ht => by simp [h1 t ht]),
    List.findSome?_eq_none_iff.mpr (fun letters hl => List.find?_eq_none.mpr
      (fun t ht => by simp [h2 letters hl t ht])),
    havg]
  exact hblack

/-- Witness for C8 at a concrete 1×1 fully transparent image and the colorless
name `"meteorbig_07"`. -/
theorem claim_C8_witness :
    (∀ p ∈ regionPixels transparentImg rect1, p.2.2.2 = 0) ∧
    average_color transparentImg rect1 = (0, 0, 0) ∧
    detect_color "meteorbig_07" ["big", ""] (average_color transparentImg rect1)
      = "Black" :=
  ⟨by decide,
   (claim_C8 transparentImg rect1 (by decide)).1,
   (claim_C8 transparentImg rect1 (by decide)).2.2 "meteorbig_07" ["big", ""]
     (by decide) (by decide)⟩


/-! ### Shape lemmas: `describe_core` on the three example filenames, as a
function of the sampled color (everything else is concrete computation). -/

theorem describe_redlaser (rgb : ℚ × ℚ × ℚ) :
    describe_core "RedLaser_03" rgb = "Red redlaser" := rfl

theorem describe_meteorBig (rgb : ℚ × ℚ × ℚ) :
    describe_core "meteorBig_07" rgb
      = pyStrip (joinSpace [abbrevColor (classify_color rgb), "big", "meteor", ""]) := rfl

theorem describe_playership (rgb : ℚ × ℚ × ℚ) :
    describe_core "playership3_damage2" rgb
      = pyStrip (joinSpace
          [abbrevColor (classify_color rgb), "player ship", "v3", "dmg2"]) := rfl

/-! ### Classification helpers for the grey and blue buckets -/

theorem rgb_to_hsv_diag (x : ℚ) : rgb_to_hsv x x x = (0, 0, x) := by
  simp [rgb_to_hsv]

theorem classify_grey (rgb : ℚ × ℚ × ℚ)
    (hnb : ¬(rgb.1 = 0 ∧ rgb.2.1 = 0 ∧ rgb.2.2 = 0))
    (hsat : (rgb_to_hsv (rgb.1 / 255) (rgb.2.1 / 255) (rgb.2.2 / 255)).2.1 < 0.22)
    (hval : (rgb_to_hsv (rgb.1 / 255) (rgb.2.1 / 255) (rgb.2.2 / 255)).2.2 = 1/2) :
    classify_color rgb = "Grey" := by
  unfold classify_color
  rw [if_neg hnb]
  dsimp only
  rw [if_pos hsat, if_neg (by rw [hval]; norm_num), if_neg (by rw [hval]; norm_num),
    if_pos (by rw [hval]; norm_num)]

theorem classify_blue (rgb : ℚ × ℚ × ℚ)
    (hnb : ¬(rgb.1 = 0 ∧ rgb.2.1 = 0 ∧ rgb.2.2 = 0))
    (hsat : ¬((rgb_to_hsv (rgb.1 / 255) (rgb.2.1 / 255) (rgb.2.2 / 255)).2.1 < 0.22))
    (hh1 : 210 ≤ (rgb_to_hsv (rgb.1 / 255) (rgb.2.1 / 255) (rgb.2.2 / 255)).1 * 360)
    (hh2 : (rgb_to_hsv (rgb.1 / 255) (rgb.2.1 / 255) (rgb.2.2 / 255)).1 * 360 < 255) :
    classify_color rgb = "Blue" := by
  unfold classify_color
  rw [if_neg hnb]
  dsimp only
  rw [if_neg hsat,
    if_neg (by rintro (h | h) <;> linarith),
    if_neg (not_lt.mpr (by linarith)),
    if_neg (not_lt.mpr (by linarith)),
    if_neg (not_lt.mpr (by linarith)),
    if_neg (not_lt.mpr (by linarith)),
    if_pos hh2]

/-- Claim C1, amended: for the frame filename `"RedLaser_03"`, with any frame
record and any image (hence any sampled pixel color), `describe_frame` returns
`"Red redlaser"`: the lexical color match yields `"Red"` independently of the
sampled RGB, but the base segment `"redlaser"` is a prefix of no known base key
(prefix matching, not substring matching), so the fallback label is the raw
lowercased segment `"redlaser"` with an empty variant. -/
theorem claim_C1 {α : Type} (details : FrameRecord α) (image : Image) :
    describe_frame "RedLaser_03" details image = "Red redlaser" :=
  describe_redlaser (average_color image details.frame)

/-- Counterexample to claim C1 as stated: at the concrete transparent 1×1 image
the description of `"RedLaser_03"` is `"Red redlaser"`, not `"Red laser bolt v3"`. -/
theorem claim_C1_counterexample :
    describe_frame "RedLaser_03" (mkRec rect1) transparentImg = "Red redlaser" ∧
    describe_frame "RedLaser_03" (mkRec rect1) transparentImg ≠ "Red laser bolt v3" := by
  have h1 : describe_frame "RedLaser_03" (mkRec rect1) transparentImg = "Red redlaser" :=
    describe_redlaser (average_color transparentImg (mkRec rect1).frame)
  refine ⟨h1, fun h => ?_⟩
  exact absurd (h1.symm.trans h) (by decide)

/-- Claim C2, amended: for the frame filename `"meteorBig_07"` (whose lowercase
name contains no color token), when the sampled average color is near-greyscale
(saturation < 0.22) with value exactly 0.5 and is not pure black, it classifies
as `"Grey"` and `describe_frame` returns `"Grey big meteor"`: `"big"` is the
size token, but the digits `"07"` belong to a separate letterless token rather
than to the size token, and the base variant is empty, so no `v…` fragment is
produced. -/
theorem claim_C2 {α : Type} (details : FrameRecord α) (image : Image)
    (rgb : ℚ × ℚ × ℚ)
    (havg : average_color image details.frame = rgb)
    (hnb : ¬(rgb.1 = 0 ∧ rgb.2.1 = 0 ∧ rgb.2.2 = 0))
    (hsat : (rgb_to_hsv (rgb.1 / 255) (rgb.2.1 / 255) (rgb.2.2 / 255)).2.1 < 0.22)
    (hval : (rgb_to_hsv (rgb.1 / 255) (rgb.2.1 / 255) (rgb.2.2 / 255)).2.2 = 1/2) :
    classify_color rgb = "Grey" ∧
    describe_frame "meteorBig_07" details image = "Grey big meteor" := by
  have hcl := classify_grey rgb hnb hsat hval
  refine ⟨hcl, ?_⟩
  unfold describe_frame
  rw [havg, describe_meteorBig, hcl]
  rfl

/-- Average of the two grey pixels of `greyImg`: exactly (127.5, 127.5, 127.5),
whose HSV value is exactly 0.5. -/
theorem avg_grey : average_color greyImg rect2 = (255/2, 255/2, 255/2) := by
  have hfil : (regionPixels greyImg rect2).filter (fun p => decide (0 < p.2.2.2))
      = [(127, 127, 127, 255), (128, 128, 128, 255)] := by decide
  unfold average_color
  rw [hfil, if_neg (by decide)]
  norm_num

/-- Counterexample to claim C2 as stated: at the concrete grey image the
sampled color classifies as `"Grey"`, yet the description is not
`"Grey big meteor v7"` (it is `"Grey big meteor"`). -/
theorem claim_C2_counterexample :
    classify_color (average_color greyImg (mkRec rect2).frame) = "Grey" ∧
    describe_frame "meteorBig_07" (mkRec rect2) greyImg ≠ "Grey big meteor v7" := by
  have havg : average_color greyImg (mkRec rect2).frame = (255/2, 255/2, 255/2) :=
    avg_grey
  have hcl : classify_color ((255 : ℚ)/2, (255 : ℚ)/2, (255 : ℚ)/2) = "Grey" := by
    apply classify_grey
    · norm_num
    · norm_num [rgb_to_hsv_diag]
    · norm_num [rgb_to_hsv_diag]
  refine ⟨by rw [havg]; exact hcl, ?_⟩
  intro h
  rw [show describe_frame "meteorBig_07" (mkRec rect2) greyImg
      = describe_core "meteorBig_07" (average_color greyImg (mkRec rect2).frame)
      from rfl, havg, describe_meteorBig, hcl] at h
  exact absurd h (by decide)

/-- Claim C7: for the frame filename `"playership3_damage2"` (whose lowercase
name contains no color token), when the sampled average color is saturated
(s ≥ 0.22) with hue in [210°, 255°), it classifies as `"Blue"` and
`describe_frame` returns `"Blue player ship v3 dmg2"`: the base variant `"3"`
becomes `"v3"` and the digits of the `"damage"` token become `"dmg2"`. -/
theorem claim_C7 {α : Type} (details : FrameRecord α) (image : Image)
    (rgb : ℚ × ℚ × ℚ)
    (havg : average_color image details.frame = rgb)
    (hnb : ¬(rgb.1 = 0 ∧ rgb.2.1 = 0 ∧ rgb.2.2 = 0))
    (hsat : ¬((rgb_to_hsv (rgb.1 / 255) (rgb.2.1 / 255) (rgb.2.2 / 255)).2.1 < 0.22))
    (hh1 : 210 ≤ (rgb_to_hsv (rgb.1 / 255) (rgb.2.1 / 255) (rgb.2.2 / 255)).1 * 360)
    (hh2 : (rgb_to_hsv (rgb.1 / 255) (rgb.2.1 / 255) (rgb.2.2 / 255)).1 * 360 < 255) :
    classify_color rgb = "Blue" ∧
    describe_frame "playership3_damage2" details image = "Blue player ship v3 dmg2" := by
  have hcl := classify_blue rgb hnb hsat hh1 hh2
  refine ⟨hcl, ?_⟩
  unfold describe_frame
  rw [havg, describe_playership, hcl]
  rfl

/-- The HSV of pure blue (0, 0, 1): hue two thirds (240°), full saturation. -/
theorem hsv_blue : rgb_to_hsv 0 0 1 = (2/3, 1, 1) := by
  unfold rgb_to_hsv
  norm_num [Int.fract]

/-- Average of the single opaque blue pixel of `blueImg`. -/
theorem avg_blue : average_color blueImg rect1 = (0, 0, 255) := by
  have hfil : (regionPixels blueImg rect1).filter (fun p => decide (0 < p.2.2.2))
      = [(0, 0, 255, 255)] := by decide
  unfold average_color
  rw [hfil, if_neg (by decide)]
  norm_num

/-- Witness for C7 at the concrete 1×1 pure-blue image (hue 240°). -/
theorem claim_C7_witness :
    classify_color ((0 : ℚ), (0 : ℚ), (255 : ℚ)) = "Blue" ∧
    describe_frame "playership3_damage2" (mkRec rect1) blueImg
      = "Blue player ship v3 dmg2" :=
  claim_C7 (mkRec rect1) blueImg (0, 0, 255) avg_blue
    (by norm_num)
    (by norm_num [hsv_blue])
    (by norm_num [hsv_blue])
    (by norm_num [hsv_blue])

/-- Witness for C2 (amended) at the concrete 2×1 grey image (value 0.5). -/
theorem claim_C2_witness :
    classify_color ((255 : ℚ)/2, (255 : ℚ)/2, (255 : ℚ)/2) = "Grey" ∧
    describe_frame "meteorBig_07" (mkRec rect2) greyImg = "Grey big meteor" :=
  claim_C2 (mkRec rect2) greyImg (255/2, 255/2, 255/2) avg_grey
    (by norm_num)
    (by norm_num [rgb_to_hsv_diag])
    (by norm_num [rgb_to_hsv_diag])

end Moxi
